import Mathlib

/-!
Verification of the etcd-raft utility layer (`util.go`) and of the
election scenarios exercised by the test harness (`raft2.go`).

The Go code is shallowly embedded: Go slices become `List`s, the
protobuf-generated `raftpb` types (which are not part of the repository's
utility sources) are modelled as plain structures over `Nat`, and the
fatal `panic` branch of `voteRespMsgType` becomes an `Option` result.
The raft core itself (`newRaft`, `raft.Step`) is not among the sources;
the election scenarios are settled against a state machine modelled from
the specification's §4.1 transition rules, driven by the message-queue
network taken from `raft2.go`.
-/

namespace EtcdRaft

/-! ## Message kinds

Modelled from the spec: the closed set of message kinds of §6 with the
ordinals of the protobuf-generated `raftpb.MessageType` enumeration
(generated code, not under the repository's utility sources).  The kind
is kept as a plain `Nat` ordinal because the lookup tables of `util.go`
are indexed by ordinal.
-/

def MsgHup : Nat := 0
def MsgBeat : Nat := 1
def MsgProp : Nat := 2
def MsgApp : Nat := 3
def MsgAppResp : Nat := 4
def MsgVote : Nat := 5
def MsgVoteResp : Nat := 6
def MsgSnap : Nat := 7
def MsgHeartbeat : Nat := 8
def MsgHeartbeatResp : Nat := 9
def MsgUnreachable : Nat := 10
def MsgSnapStatus : Nat := 11
def MsgCheckQuorum : Nat := 12
def MsgTransferLeader : Nat := 13
def MsgTimeoutNow : Nat := 14
def MsgReadIndex : Nat := 15
def MsgReadIndexResp : Nat := 16
def MsgPreVote : Nat := 17
def MsgPreVoteResp : Nat := 18
def MsgStorageAppend : Nat := 19
def MsgStorageAppendResp : Nat := 20
def MsgStorageApply : Nat := 21
def MsgStorageApplyResp : Nat := 22
def MsgForgetLeader : Nat := 23

/-! ## Entries -/

/-- `raftpb.EntryType`: the three kinds of log entries. -/
inductive EntryType where
  | EntryNormal
  | EntryConfChange
  | EntryConfChangeV2
deriving DecidableEq, Repr, Inhabited

/-- A log entry, `raftpb.Entry`.  `data` is the opaque payload (a byte
sequence).  `encSize` — modelled from the spec: the protocol-buffer
encoded byte size returned by the generated `Entry.Size()` method, which
is not part of the repository's sources; it is kept as an opaque
per-entry byte count, which is all `limitSize`/`entsSize` consume. -/
structure Entry where
  term : Nat := 0
  index : Nat := 0
  type : EntryType := .EntryNormal
  data : List Nat := []
  encSize : Nat := 0
deriving DecidableEq, Repr, Inhabited

/-- `entsSize`: the total encoded byte size of a list of entries
(`size += ent.Size()` over the slice). -/
def entsSize : List Entry → Nat
  | [] => 0
  | e :: rest => e.encSize + entsSize rest

/-- The `for limit := 1; ...` loop of `limitSize`: `size` is the encoded
size of the entries already accepted; an entry whose addition pushes
`size` above `maxSize` stops the scan, returning no further entries. -/
def limitSizeLoop : List Entry → Nat → Nat → List Entry
  | [], _, _ => []
  | e :: rest, size, maxSize =>
    if size + e.encSize > maxSize then []
    else e :: limitSizeLoop rest (size + e.encSize) maxSize

/-- `limitSize` (util.go): the longest prefix of `ents` whose total byte
size does not exceed `maxSize`, except that a non-empty input always
yields at least its first entry. -/
def limitSize (ents : List Entry) (maxSize : Nat) : List Entry :=
  match ents with
  | [] => []
  | e :: rest => e :: limitSizeLoop rest e.encSize maxSize

/-- An entry whose encoded size is `n` (payload and slot irrelevant),
for concrete `limitSize` inputs. -/
def entOfSize (n : Nat) : Entry := { encSize := n }

lemma limitSizeLoop_take (rest : List Entry) (size maxSize : Nat) :
    ∃ n, n ≤ rest.length ∧ limitSizeLoop rest size maxSize = rest.take n := by
  induction rest generalizing size with
  | nil => exact ⟨0, Nat.le_refl 0, rfl⟩
  | cons e rest ih =>
    by_cases h : size + e.encSize > maxSize
    · exact ⟨0, Nat.zero_le _, by simp [limitSizeLoop, h]⟩
    · obtain ⟨n, hn, hEq⟩ := ih (size + e.encSize)
      exact ⟨n + 1, by simpa using hn, by simp [limitSizeLoop, h, hEq]⟩

lemma limitSizeLoop_size (rest : List Entry) (size maxSize : Nat) :
    limitSizeLoop rest size maxSize = [] ∨
      size + entsSize (limitSizeLoop rest size maxSize) ≤ maxSize := by
  induction rest generalizing size with
  | nil => exact .inl rfl
  | cons e rest ih =>
    by_cases h : size + e.encSize > maxSize
    · exact .inl (by simp [limitSizeLoop, h])
    · rcases ih (size + e.encSize) with h0 | hle
      · right
        simp only [limitSizeLoop, if_neg h, h0, entsSize]
        omega
      · right
        simp only [limitSizeLoop, if_neg h, entsSize]
        omega

lemma limitSize_nonempty_take (ents : List Entry) (maxSize : Nat)
    (h : ents ≠ []) :
    (∃ n, 1 ≤ n ∧ n ≤ ents.length ∧ limitSize ents maxSize = ents.take n) ∧
      (entsSize (limitSize ents maxSize) ≤ maxSize ∨
        limitSize ents maxSize = ents.take 1) := by
  match ents with
  | [] => exact absurd rfl h
  | e :: rest =>
    constructor
    · obtain ⟨n, hn, hEq⟩ := limitSizeLoop_take rest e.encSize maxSize
      exact ⟨n + 1, by omega, by simpa using hn, by simp [limitSize, hEq]⟩
    · rcases limitSizeLoop_size rest e.encSize maxSize with h0 | hle
      · exact .inr (by simp [limitSize, h0])
      · left
        simp only [limitSize, entsSize]
        omega

/-- C1: `limitSize` on a non-empty list returns a non-empty prefix whose
total encoded size stays within `maxSize`, except that the single first
entry is returned even when it alone exceeds the cap; with sizes
[5,5,5] and cap 12 it keeps the first two entries, with [20,5,5] and
cap 12 exactly the first. -/
theorem limitSize_cap_spec :
    (∀ (ents : List Entry) (maxSize : Nat), ents ≠ [] →
      (∃ n, 1 ≤ n ∧ n ≤ ents.length ∧ limitSize ents maxSize = ents.take n) ∧
        (entsSize (limitSize ents maxSize) ≤ maxSize ∨
          limitSize ents maxSize = ents.take 1)) ∧
    limitSize [entOfSize 5, entOfSize 5, entOfSize 5] 12 =
      [entOfSize 5, entOfSize 5] ∧
    limitSize [entOfSize 20, entOfSize 5, entOfSize 5] 12 = [entOfSize 20] := by
  refine ⟨limitSize_nonempty_take, by decide, by decide⟩

/-! ## Message-kind classification (util.go lookup tables) -/

/-- The `isLocalMsg` array literal: a Go array of length 23 (one above
the largest index key, `MsgStorageApplyResp = 22`) holding `true` at the
keyed positions 0 (Hup), 1 (Beat), 10 (Unreachable), 11 (SnapStatus),
12 (CheckQuorum), 19–22 (the storage pipeline kinds) and the zero value
`false` everywhere else. -/
def isLocalMsgArr : List Bool :=
  [true, true, false, false, false, false, false, false, false, false,
   true, true, true, false, false, false, false, false, false, true,
   true, true, true]

/-- The `isResponseMsg` array literal: length 23, `true` at positions
4 (AppResp), 6 (VoteResp), 9 (HeartbeatResp), 10 (Unreachable),
16 (ReadIndexResp), 18 (PreVoteResp), 20 (StorageAppendResp),
22 (StorageApplyResp). -/
def isResponseMsgArr : List Bool :=
  [false, false, false, false, true, false, true, false, false, true,
   true, false, false, false, false, false, true, false, true, false,
   true, false, true]

/-- `isMsgInArray`: `i < len(arr) && arr[i]` — the short-circuit bounds
check guards the array access, so the lookup is in-bounds by
construction and any ordinal beyond the table yields `false`. -/
def isMsgInArray (msgt : Nat) (arr : List Bool) : Bool :=
  if h : msgt < arr.length then arr.get ⟨msgt, h⟩ else false

/-- `IsLocalMsg` (util.go). -/
def IsLocalMsg (msgt : Nat) : Bool := isMsgInArray msgt isLocalMsgArr

/-- `IsResponseMsg` (util.go). -/
def IsResponseMsg (msgt : Nat) : Bool := isMsgInArray msgt isResponseMsgArr

lemma isMsgInArray_of_le (msgt : Nat) (arr : List Bool)
    (h : arr.length ≤ msgt) : isMsgInArray msgt arr = false := by
  simp [isMsgInArray, Nat.not_lt_of_le h]

/-- The nine message kinds classified as local-only. -/
def localKinds : List Nat :=
  [MsgHup, MsgBeat, MsgUnreachable, MsgSnapStatus, MsgCheckQuorum,
   MsgStorageAppend, MsgStorageAppendResp, MsgStorageApply,
   MsgStorageApplyResp]

/-- The eight message kinds classified as responses. -/
def responseKinds : List Nat :=
  [MsgAppResp, MsgVoteResp, MsgHeartbeatResp, MsgUnreachable,
   MsgReadIndexResp, MsgPreVoteResp, MsgStorageAppendResp,
   MsgStorageApplyResp]

/-- C5: `IsLocalMsg` holds exactly for the nine local kinds and
`IsResponseMsg` exactly for the eight response kinds; every other
message-kind ordinal is classified as neither. -/
theorem isLocalMsg_isResponseMsg_classification (t : Nat) :
    (IsLocalMsg t = true ↔ t ∈ localKinds) ∧
      (IsResponseMsg t = true ↔ t ∈ responseKinds) := by
  by_cases h : t < 23
  · interval_cases t <;> decide
  · have h1 : IsLocalMsg t = false :=
      isMsgInArray_of_le t isLocalMsgArr (by simp [isLocalMsgArr]; omega)
    have h2 : IsResponseMsg t = false :=
      isMsgInArray_of_le t isResponseMsgArr (by simp [isResponseMsgArr]; omega)
    constructor
    · simp only [h1]
      constructor
      · intro hc; exact absurd hc (by simp)
      · intro hc
        have : t ≤ 22 := by
          simp only [localKinds, List.mem_cons, List.mem_singleton] at hc
          rcases hc with h' | h' | h' | h' | h' | h' | h' | h' | h' <;>
            simp_all [MsgHup, MsgBeat, MsgUnreachable, MsgSnapStatus,
              MsgCheckQuorum, MsgStorageAppend, MsgStorageAppendResp,
              MsgStorageApply, MsgStorageApplyResp]
        omega
    · simp only [h2]
      constructor
      · intro hc; exact absurd hc (by simp)
      · intro hc
        have : t ≤ 22 := by
          simp only [responseKinds, List.mem_cons, List.mem_singleton] at hc
          rcases hc with h' | h' | h' | h' | h' | h' | h' | h' <;>
            simp_all [MsgAppResp, MsgVoteResp, MsgHeartbeatResp,
              MsgUnreachable, MsgReadIndexResp, MsgPreVoteResp,
              MsgStorageAppendResp, MsgStorageApplyResp]
        omega

/-- C9: the bounds check of `isMsgInArray` makes the classification
total — any ordinal at or beyond the table length yields `false` for an
arbitrary table, and in particular `IsLocalMsg`/`IsResponseMsg` return
`false` for every ordinal ≥ 23, the length of both backing tables. -/
theorem isMsgInArray_total (msgt : Nat) (arr : List Bool) :
    (arr.length ≤ msgt → isMsgInArray msgt arr = false) ∧
      (23 ≤ msgt → IsLocalMsg msgt = false ∧ IsResponseMsg msgt = false) := by
  refine ⟨isMsgInArray_of_le msgt arr, fun h => ⟨?_, ?_⟩⟩
  · exact isMsgInArray_of_le msgt isLocalMsgArr (by simp [isLocalMsgArr]; omega)
  · exact isMsgInArray_of_le msgt isResponseMsgArr
      (by simp [isResponseMsgArr]; omega)

/-! ## voteRespMsgType -/

/-- `voteRespMsgType` (util.go): the response kind matching a vote or
pre-vote request.  The Go `default:` branch panics ("not a vote
message"); the fatal branch is embedded as `none`. -/
def voteRespMsgType (msgt : Nat) : Option Nat :=
  if msgt = MsgVote then some MsgVoteResp
  else if msgt = MsgPreVote then some MsgPreVoteResp
  else none

/-- C6: `voteRespMsgType` maps `MsgVote` to `MsgVoteResp` and
`MsgPreVote` to `MsgPreVoteResp`, and reaches its fatal (panic) branch
exactly on every other kind; under the precondition that the argument
is a vote or pre-vote request the fatal branch is unreachable. -/
theorem voteRespMsgType_spec :
    voteRespMsgType MsgVote = some MsgVoteResp ∧
    voteRespMsgType MsgPreVote = some MsgPreVoteResp ∧
    (∀ t : Nat, voteRespMsgType t = none ↔ t ≠ MsgVote ∧ t ≠ MsgPreVote) ∧
    (∀ t : Nat, t = MsgVote ∨ t = MsgPreVote → (voteRespMsgType t).isSome) := by
  refine ⟨rfl, rfl, fun t => ?_, fun t ht => ?_⟩
  · unfold voteRespMsgType
    split
    · simp_all
    · split <;> simp_all
  · rcases ht with rfl | rfl <;> rfl

/-! ## Payload sizes -/

/-- `payloadSize` (util.go): the size of the payload of an entry —
`len(e.Data)`, independent of its `Index` or `Term`. -/
def payloadSize (e : Entry) : Nat := e.data.length

/-- `payloadsSize` (util.go): `s += payloadSize(e)` over the slice. -/
def payloadsSize : List Entry → Nat
  | [] => 0
  | e :: rest => payloadSize e + payloadsSize rest

/-- C10: payload accounting is additive over concatenation and depends
only on the `Data` field — entries equal up to `Term`/`Index` have equal
`payloadSize`, and an empty payload weighs zero. -/
theorem payloadsSize_additive_payload_only :
    (∀ a b : List Entry, payloadsSize (a ++ b) = payloadsSize a + payloadsSize b) ∧
    (∀ e₁ e₂ : Entry, e₁.data = e₂.data → payloadSize e₁ = payloadSize e₂) ∧
    (∀ e : Entry, e.data = [] → payloadSize e = 0) := by
  refine ⟨fun a b => ?_, fun e₁ e₂ h => by simp [payloadSize, h],
    fun e h => by simp [payloadSize, h]⟩
  induction a with
  | nil => simp [payloadsSize]
  | cons e rest ih => simp [payloadsSize, ih]; omega

/-! ## extend (reserve-ahead append) -/

/-- A Go slice: its elements together with its capacity.  Only the
values of the elements matter to the claims; aliasing is invisible at
this level.  `cap ≥ elems.length` holds for every slice Go can build,
but `extend` only compares the two, so no invariant is imposed. -/
structure GoSlice where
  elems : List Entry
  cap : Nat
deriving DecidableEq, Repr

/-- Go's builtin `copy(dst, src)`: overwrites the first
`min (len dst) (len src)` positions of `dst` with the corresponding
elements of `src`, keeping the rest of `dst`. -/
def goCopy (dst src : List Entry) : List Entry :=
  src.take dst.length ++ dst.drop src.length

/-- Go's builtin `append(dst, vals...)` at the value level: when the
capacity suffices Go writes in place, otherwise it reallocates with an
amortized-growth capacity; either way the resulting elements are the
concatenation. -/
def goAppend (dst : GoSlice) (vals : List Entry) : GoSlice :=
  if dst.elems.length + vals.length ≤ dst.cap then
    { elems := dst.elems ++ vals, cap := dst.cap }
  else
    { elems := dst.elems ++ vals, cap := 2 * (dst.elems.length + vals.length) }

/-- `extend` (util.go): appends `vals` to `dst`, but when the capacity
is insufficient it allocates precisely `len(dst)+len(vals)` and fills
the fresh buffer with two `copy` calls. -/
def extend (dst : GoSlice) (vals : List Entry) : GoSlice :=
  let need := dst.elems.length + vals.length
  if need ≤ dst.cap then
    goAppend dst vals
  else
    let buf := goCopy (List.replicate need (default : Entry)) dst.elems
    { elems := buf.take dst.elems.length ++
        goCopy (buf.drop dst.elems.length) vals,
      cap := need }

/-- C7: for every destination slice (whatever its capacity) and every
value slice, `extend` yields exactly the elements of the standard
`append(dst, vals...)`, i.e. the concatenation `dst ++ vals`. -/
theorem extend_eq_append (dst : GoSlice) (vals : List Entry) :
    (extend dst vals).elems = dst.elems ++ vals ∧
      (extend dst vals).elems = (goAppend dst vals).elems := by
  have h : (extend dst vals).elems = dst.elems ++ vals := by
    unfold extend
    by_cases hc : dst.elems.length + vals.length ≤ dst.cap
    · simp only [hc, if_true]
      unfold goAppend
      split <;> rfl
    · simp only [hc, if_false]
      have hbuf : goCopy (List.replicate (dst.elems.length + vals.length)
          (default : Entry)) dst.elems =
          dst.elems ++ List.replicate vals.length (default : Entry) := by
        unfold goCopy
        rw [List.length_replicate, List.take_of_length_le (by omega),
          List.drop_replicate, Nat.add_sub_cancel_left]
      rw [hbuf]
      rw [List.take_append_of_le_length (Nat.le_refl _), List.take_length,
        List.drop_append_of_le_length (Nat.le_refl _), List.drop_length]
      unfold goCopy
      simp
  refine ⟨h, ?_⟩
  rw [h]
  unfold goAppend
  split <;> rfl

/-! ## Debug formatting (DescribeEntry) -/

/-- `EntryFormatter` (util.go): an application-supplied renderer of an
entry's opaque payload.  Go's `nil` formatter is `none`. -/
def EntryFormatter : Type := Option (List Nat → String)

/-- Modelled from the spec: Go's `fmt.Sprintf("%q", data)` (standard
library, not under the repository's sources) — the default generic
renderer that renders the payload as a double-quoted byte string,
escaping non-printable bytes. -/
def quoteBytes (data : List Nat) : String :=
  let esc := fun (b : Nat) =>
    if b = 34 then "\\\""
    else if b = 92 then "\\\\"
    else if 32 ≤ b ∧ b < 127 then String.mk [Char.ofNat b]
    else "\\x" ++ String.mk [Char.ofNat (55 + b / 16 % 16), Char.ofNat (55 + b % 16)]
  "\"" ++ String.join (data.map esc) ++ "\""

/-- The default formatter installed by `DescribeEntry` when `f == nil`:
`func(data []byte) string { return fmt.Sprintf("%q", data) }`. -/
def defaultEntryFormatter : List Nat → String := quoteBytes

/-- Modelled from the spec: the rendering of a conf-change payload
(`raftpb.ConfChange`/`ConfChangeV2` `Unmarshal` followed by
`ConfChangesToString`, generated code not under the repository's
sources).  Its exact text is irrelevant here; the one property the
claims rely on — visible in the source — is that it never consults the
injected `EntryFormatter`, so the raw payload rendering stands in. -/
def describeConfChangeData (data : List Nat) : String := quoteBytes data

/-- `e.Type.String()` of the generated enum (modelled from the spec). -/
def entryTypeString : EntryType → String
  | .EntryNormal => "EntryNormal"
  | .EntryConfChange => "EntryConfChange"
  | .EntryConfChangeV2 => "EntryConfChangeV2"

/-- `DescribeEntry` (util.go): `"%d/%d %s%s"` over term, index, type and
the formatted payload; a `nil` formatter falls back to the default
quoting renderer, and conf-change payloads are rendered without the
formatter. -/
def DescribeEntry (e : Entry) (f : EntryFormatter) : String :=
  let fmtFn := f.getD defaultEntryFormatter
  let formatted :=
    match e.type with
    | .EntryNormal => fmtFn e.data
    | .EntryConfChange => describeConfChangeData e.data
    | .EntryConfChangeV2 => describeConfChangeData e.data
  let formatted := if formatted = "" then formatted else " " ++ formatted
  toString e.term ++ "/" ++ toString e.index ++ " " ++
    entryTypeString e.type ++ formatted

/-- `DescribeEntries` (util.go): one `DescribeEntry` line per entry. -/
def DescribeEntries (ents : List Entry) (f : EntryFormatter) : String :=
  String.join (ents.map (fun e => DescribeEntry e f ++ "\n"))

/-- C8: a `nil` `EntryFormatter` is a valid argument: for every entry,
`DescribeEntry` (and hence `DescribeEntries` on every entry list) with
`none` renders exactly as with the default quoting renderer supplied
explicitly. -/
theorem describeEntry_nil_formatter :
    (∀ e : Entry, DescribeEntry e none = DescribeEntry e (some defaultEntryFormatter)) ∧
    (∀ ents : List Entry,
      DescribeEntries ents none = DescribeEntries ents (some defaultEntryFormatter)) := by
  constructor
  · intro e; rfl
  · intro ents; rfl

/-! ## Election state machine

Modelled from the spec: the raft core (`newRaft`, `raft.Step`,
`becomeFollower`/`becomeCandidate`/`becomePreCandidate`/`becomeLeader`)
is not among the repository's sources — only its test harness
(`raft2.go`) is.  The election-related transitions of spec §4.1 are
modelled below; replication/read-path kinds are outside the claims and
leave the state unchanged.  The message-queue network driving the
scenarios follows `network.send` of `raft2.go`.
-/

/-- The four roles (`StateType` of the core, as used by `raft2.go`). -/
inductive StateType where
  | StateFollower
  | StatePreCandidate
  | StateCandidate
  | StateLeader
deriving DecidableEq, Repr

/-- The message fields the election protocol consumes (§3's Message,
restricted to the fields vote traffic carries). -/
structure Message where
  type : Nat := 0
  From : Nat := 0
  To : Nat := 0
  term : Nat := 0
  logTerm : Nat := 0
  index : Nat := 0
  reject : Bool := false
deriving DecidableEq, Repr, Inhabited

/-- Modelled from the spec: a node of the core state machine.  `vote`
and `lead` use `0` for "none"; `log` holds the entries densely from
index 1; `peers` is the voter set (`ConfState.Voters`). -/
structure RaftState where
  id : Nat
  term : Nat := 0
  vote : Nat := 0
  state : StateType := .StateFollower
  lead : Nat := 0
  log : List Entry := []
  peers : List Nat := [1, 2, 3]
  preVote : Bool := false
  votesGranted : List Nat := []
  votesRejected : List Nat := []
deriving DecidableEq, Repr

/-- The index of the node's last log entry (entries are dense from 1). -/
def lastIndex (r : RaftState) : Nat := r.log.length

/-- The term of the node's last log entry (0 for an empty log). -/
def lastTerm (r : RaftState) : Nat := ((r.log.getLast?).getD default).term

/-- A strict majority of the voter set. -/
def quorum (r : RaftState) : Nat := r.peers.length / 2 + 1

/-- Spec §4.1 vote granting: the requester's last (term, index) is at
least the node's own. -/
def logUpToDate (r : RaftState) (candLogTerm candIndex : Nat) : Bool :=
  lastTerm r < candLogTerm ∨
    (candLogTerm = lastTerm r ∧ lastIndex r ≤ candIndex)

/-- Step down to Follower at `t`; the vote record is reset when the term
increases (spec §3 invariant 1), election tallies are cleared. -/
def becomeFollower (r : RaftState) (t lead : Nat) : RaftState :=
  { r with
    state := .StateFollower, term := t,
    vote := if t = r.term then r.vote else 0,
    lead := lead, votesGranted := [], votesRejected := [] }

/-- Become Candidate: increment the term, vote for self. -/
def becomeCandidate (r : RaftState) : RaftState :=
  { r with
    state := .StateCandidate, term := r.term + 1, vote := r.id,
    lead := 0, votesGranted := [], votesRejected := [] }

/-- Become PreCandidate: the pre-vote round campaigns at `term+1`
without committing to it — term and vote record stay untouched. -/
def becomePreCandidate (r : RaftState) : RaftState :=
  { r with
    state := .StatePreCandidate, lead := 0,
    votesGranted := [], votesRejected := [] }

/-- Become Leader: append the no-op entry at the new term. -/
def becomeLeader (r : RaftState) : RaftState :=
  { r with
    state := .StateLeader, lead := r.id,
    log := r.log ++ [{ term := r.term, index := lastIndex r + 1 }] }

/-- Record one vote response in the election tally (once per voter). -/
def recordVote (r : RaftState) (id : Nat) (granted : Bool) : RaftState :=
  if granted then
    if id ∈ r.votesGranted then r
    else { r with votesGranted := r.votesGranted ++ [id] }
  else
    if id ∈ r.votesRejected then r
    else { r with votesRejected := r.votesRejected ++ [id] }

/-- The real (term-incrementing) campaign: become Candidate, vote for
self, and broadcast `MsgVote` with the own last (term, index) to every
other voter; a single-node cluster wins immediately. -/
def campaignReal (r : RaftState) : RaftState × List Message :=
  let r := becomeCandidate r
  let r := recordVote r r.id true
  if quorum r ≤ r.votesGranted.length then (becomeLeader r, [])
  else
    (r, (r.peers.filter (· ≠ r.id)).map fun p =>
      { type := MsgVote, From := r.id, To := p, term := r.term,
        logTerm := lastTerm r, index := lastIndex r })

/-- The `MsgHup` handler: with pre-vote enabled, a non-binding round at
`term+1` that does not yet touch the term; otherwise the real one. -/
def campaign (r : RaftState) : RaftState × List Message :=
  if r.preVote then
    let r := becomePreCandidate r
    let r := recordVote r r.id true
    if quorum r ≤ r.votesGranted.length then campaignReal r
    else
      (r, (r.peers.filter (· ≠ r.id)).map fun p =>
        { type := MsgPreVote, From := r.id, To := p, term := r.term + 1,
          logTerm := lastTerm r, index := lastIndex r })
  else campaignReal r

/-- Handling of an incoming `MsgVote`/`MsgPreVote` (spec §4.1): grant
iff the requester's log is at least as up to date and the node has not
already voted for a different candidate this term (a pre-vote at a
higher term never commits a vote); otherwise answer an explicit
reject. -/
def stepVoteRequest (r : RaftState) (m : Message) : RaftState × List Message :=
  let canVote := r.vote = m.From ∨ (r.vote = 0 ∧ r.lead = 0) ∨
    (m.type = MsgPreVote ∧ r.term < m.term)
  if canVote ∧ logUpToDate r m.logTerm m.index then
    let respType := if m.type = MsgVote then MsgVoteResp else MsgPreVoteResp
    ({ r with vote := if m.type = MsgVote then m.From else r.vote },
     [{ type := respType, From := r.id, To := m.From, term := m.term,
        reject := false }])
  else
    let respType := if m.type = MsgVote then MsgVoteResp else MsgPreVoteResp
    (r, [{ type := respType, From := r.id, To := m.From, term := r.term,
           reject := true }])

/-- Handling of an incoming vote/pre-vote response while campaigning:
tally it; a quorum of grants wins the round (PreCandidate proceeds to
the real campaign, Candidate becomes Leader), a quorum of rejections
reverts to Follower with the term kept. -/
def stepVoteResp (r : RaftState) (m : Message) : RaftState × List Message :=
  if (r.state = .StateCandidate ∧ m.type = MsgVoteResp) ∨
      (r.state = .StatePreCandidate ∧ m.type = MsgPreVoteResp) then
    let r := recordVote r m.From (!m.reject)
    if quorum r ≤ r.votesGranted.length then
      if r.state = .StatePreCandidate then campaignReal r
      else (becomeLeader r, [])
    else if quorum r ≤ r.votesRejected.length then
      (becomeFollower r r.term 0, [])
    else (r, [])
  else (r, [])

/-- Modelled from the spec: one step of the core state machine on one
message — the local election trigger, the higher-term step-down rule
(pre-vote kinds do not advance the term), stale-term drop, and the
vote-traffic dispatch; other kinds leave the node unchanged. -/
def step (r : RaftState) (m : Message) : RaftState × List Message :=
  if m.type = MsgHup then campaign r
  else
    let r :=
      if r.term < m.term then
        if m.type = MsgPreVote ∨ m.type = MsgPreVoteResp then r
        else
          becomeFollower r m.term
            (if m.type = MsgApp ∨ m.type = MsgHeartbeat ∨ m.type = MsgSnap
             then m.From else 0)
      else r
    if m.term < r.term then (r, [])
    else if m.type = MsgVote ∨ m.type = MsgPreVote then stepVoteRequest r m
    else if m.type = MsgVoteResp ∨ m.type = MsgPreVoteResp then
      stepVoteResp r m
    else (r, [])

/-! ## The test network (raft2.go) -/

/-- A network participant: a live node, or the `blackHole` stepper that
accepts every message and never answers. -/
inductive Peer where
  | node (r : RaftState)
  | hole
deriving DecidableEq, Repr

/-- Deliver one message to a peer. -/
def Peer.stepPeer : Peer → Message → Peer × List Message
  | .node r, m => let (r', out) := step r m; (.node r', out)
  | .hole, _ => (.hole, [])

/-- The test network of `raft2.go`: position `i` of `peers` holds the
participant with id `i + 1`. -/
structure Network where
  peers : List Peer
deriving DecidableEq, Repr

/-- Deliver `m` to `peers[m.To]` and collect its responses. -/
def Network.deliver (net : Network) (m : Message) : Network × List Message :=
  let p := net.peers.getD (m.To - 1) .hole
  let (p', out) := p.stepPeer m
  ({ peers := net.peers.set (m.To - 1) p' }, out)

/-- `network.send` of `raft2.go`: pop the queue head, step its
destination and append the responses — FIFO to quiescence.  The Go loop
runs until the queue is empty; the explicit `fuel` bounds the recursion,
and a run that ends with an empty queue has reached quiescence. -/
def sendLoop : Nat → Network → List Message → Network × List Message
  | 0, net, msgs => (net, msgs)
  | _ + 1, net, [] => (net, [])
  | fuel + 1, net, m :: rest =>
    let (net', out) := net.deliver m
    sendLoop fuel net' (rest ++ out)

/-- The raft node a network holds under `id` (none for a black hole). -/
def Network.nodeState (net : Network) (id : Nat) : Option RaftState :=
  match net.peers.getD (id - 1) .hole with
  | .node r => some r
  | .hole => none

/-- A fresh node: empty log, term 0, Follower, in the 3-voter set. -/
def freshNode (id : Nat) (preVote : Bool) : RaftState :=
  { id := id, preVote := preVote }

/-- Entries with the given terms at indexes 1, 2, … (`entsWithConfig`). -/
def entriesFromTerms : List Nat → Nat → List Entry
  | [], _ => []
  | t :: rest, start =>
    { term := t, index := start } :: entriesFromTerms rest (start + 1)

/-- `entsWithConfig` of `raft2.go`: a voter whose log holds one entry
per given term and whose current term is the last of them. -/
def entsNode (id : Nat) (terms : List Nat) : RaftState :=
  { id := id, term := terms.getLastD 0, log := entriesFromTerms terms 1 }

/-- The local election trigger delivered to node 1. -/
def hupTo1 : Message := { type := MsgHup, From := 1, To := 1 }

/-- The vote request node 1 broadcasts at term 1 from an empty log. -/
def voteReqTo (p : Nat) : Message :=
  { type := MsgVote, From := 1, To := p, term := 1, logTerm := 0, index := 0 }

/-- Three fresh reachable nodes. -/
def net3fresh : Network :=
  { peers := [.node (freshNode 1 false), .node (freshNode 2 false),
              .node (freshNode 3 false)] }

/-- Node 1 fresh; nodes 2 and 3 hold one committed-looking entry at
term 1 and already sit at term 1. -/
def net3behind : Network :=
  { peers := [.node (freshNode 1 false), .node (entsNode 2 [1]),
              .node (entsNode 3 [1])] }

/-- Node 1 fresh with pre-vote enabled; nodes 2 and 3 are black holes
(a majority of the peers never responds). -/
def net3prevote : Network :=
  { peers := [.node (freshNode 1 true), .hole, .hole] }

/-- C2: in the fresh 3-node cluster, delivering `MsgHup` to node 1 and
processing every resulting message to quiescence (the queue drains)
leaves node 1 as Leader at term 1. -/
theorem election_3node_leader :
    (sendLoop 10 net3fresh [hupTo1]).2 = [] ∧
    ((sendLoop 10 net3fresh [hupTo1]).1.nodeState 1).map
        (fun r => (r.state, r.term)) =
      some (.StateLeader, 1) := by
  decide

/-- C3: with nodes 2 and 3 one committed-looking term-1 entry ahead,
node 1's campaign broadcasts its vote request, both peers answer an
explicit reject on the log comparison, and at quiescence node 1 is
Follower at term 1. -/
theorem election_3node_rejected :
    (step (freshNode 1 false) hupTo1).2 = [voteReqTo 2, voteReqTo 3] ∧
    ((step (entsNode 2 [1]) (voteReqTo 2)).2.map
        fun m => (m.type, m.To, m.reject)) = [(MsgVoteResp, 1, true)] ∧
    ((step (entsNode 3 [1]) (voteReqTo 3)).2.map
        fun m => (m.type, m.To, m.reject)) = [(MsgVoteResp, 1, true)] ∧
    (sendLoop 10 net3behind [hupTo1]).2 = [] ∧
    ((sendLoop 10 net3behind [hupTo1]).1.nodeState 1).map
        (fun r => (r.state, r.term)) =
      some (.StateFollower, 1) := by
  decide

/-- C4: with pre-vote enabled and no pre-vote quorum reachable, node 1
ends the drained run as PreCandidate with its term still 0; the term is
incremented by `becomeCandidate` only, never by `becomePreCandidate`. -/
theorem prevote_no_quorum_stays_precandidate :
    (sendLoop 10 net3prevote [hupTo1]).2 = [] ∧
    ((sendLoop 10 net3prevote [hupTo1]).1.nodeState 1).map
        (fun r => (r.state, r.term)) =
      some (.StatePreCandidate, 0) ∧
    ∀ r : RaftState,
      (becomeCandidate r).term = r.term + 1 ∧
        (becomePreCandidate r).term = r.term := by
  refine ⟨by decide, by decide, fun r => ⟨rfl, rfl⟩⟩

end EtcdRaft
